import Mathlib

/-!
Shallow embedding of the Availability & Scheduling Engine of the
barber_growth_engine repository.

Times of day are embedded as minutes (`Nat`), calendar dates as day numbers
(`Nat`) with day 0 falling on a Sunday, so that `EXTRACT(DOW FROM date)` is
`date % 7`.  Row identifiers (uuid columns) are embedded as `Nat`.  Database
tables are embedded as lists of rows; an SQL `INSERT` appends to the list.

Sources:
- `supabase/migrations/20251122115721_add_anon_policies_for_public_booking.sql`
  (DDL of `availability_blocks`, `barbers`, `appointments` additions);
- `supabase/migrations/20251123004302_add_barber_weekly_schedules.sql`
  (DDL of `barber_weekly_schedules`, `sync_barber_schedules_to_availability`);
- `supabase/migrations/20251123150312_update_generate_free_time_slots_for_staff.sql`
  (`generate_free_time_slots`, staff version with capacity);
- `src/pages/BookingsPage.tsx` (`NewAppointmentModal.handleSubmit`),
  public booking page `handleSubmit`, `SettingsPage` block modal
  (client-side inserts).
-/

namespace BarberEngine

/-- `appointments.status` CHECK constraint values. -/
inductive ApptStatus where
  | scheduled
  | completed
  | cancelled
  | no_show
deriving DecidableEq, Repr, BEq

/-- Row of the `appointments` table (columns used by the engine).
`staff_id` is the nullable `barber_id`/`staff_id` column. -/
structure Appointment where
  business_id : Nat
  staff_id : Option Nat
  customer_id : Nat
  service_id : Nat
  appointment_date : Nat
  appointment_time : Nat
  duration_minutes : Nat
  status : ApptStatus
deriving DecidableEq, Repr

/-- Row of the `availability_blocks` table.  `staff_id` (formerly `barber_id`)
is nullable: `null` means the block applies to any staff member.
`max_clients` is `int NOT NULL DEFAULT 1`; the DDL has no CHECK constraint on
it nor on the time columns, and no uniqueness constraint. -/
structure AvailabilityBlock where
  business_id : Nat
  staff_id : Option Nat
  date : Nat
  start_time : Nat
  end_time : Nat
  max_clients : Nat
deriving DecidableEq, Repr

/-- Row of the `barber_weekly_schedules` table.  `staff_id` (`barber_id`) is
NOT NULL.  The `valid_break_hours` CHECK makes the two break columns null
together; the sync function also tests both for null. -/
structure WeeklySchedule where
  business_id : Nat
  staff_id : Nat
  weekday : Nat
  work_start_time : Nat
  work_end_time : Nat
  break_start_time : Option Nat
  break_end_time : Option Nat
  is_active : Bool
deriving DecidableEq, Repr

/-- Row of the `businesses` table (the columns the engine consults). -/
structure Business where
  id : Nat
  owner_id : Nat
deriving DecidableEq, Repr

/-! ## Slot Generator: `generate_free_time_slots` (staff version) -/

/-- Predicate of the overlap-counting query inside `generate_free_time_slots`:
same business, `staff_id = p_staff_id` (SQL equality, hence never true for a
NULL `staff_id`), same date, status `scheduled`, and
`slot_start < appointment_time + duration AND slot_end > appointment_time`.
The appointment end is a PostgreSQL `time + interval` sum and therefore wraps
modulo 24 hours (`% 1440` minutes); `slot_end` is the caller's
`v_slot_end_time`, itself already wrapped. -/
def apptOverlapsb (p_business_id p_staff_id : Nat) (p_date : Nat)
    (slot_start slot_end : Nat) (a : Appointment) : Bool :=
  a.business_id == p_business_id
    && a.staff_id == some p_staff_id
    && a.appointment_date == p_date
    && a.status == ApptStatus.scheduled
    && decide (slot_start < (a.appointment_time + a.duration_minutes) % 1440)
    && decide (slot_end > a.appointment_time)

/-- `SELECT COUNT(*) FROM appointments WHERE ...` of `generate_free_time_slots`. -/
def overlapCount (appts : List Appointment) (p_business_id p_staff_id : Nat)
    (p_date : Nat) (slot_start slot_end : Nat) : Nat :=
  appts.countP (apptOverlapsb p_business_id p_staff_id p_date slot_start slot_end)

/-- Effective capacity of a block: `COALESCE(max_clients, 1)`.  The column is
`NOT NULL`, so the fallback never applies and this is the stored value. -/
def effectiveCapacity (b : AvailabilityBlock) : Nat :=
  b.max_clients

/-- Fuel-indexed body of the inner `WHILE v_current_time < v_block.end_time`
loop.  `v_slot_end_time := v_current_time + (duration)::interval` is `time`
arithmetic and wraps modulo 24 hours, so the fit test compares the wrapped
slot end `(t + dur) % 1440` against the block end.  The loop advances `t` by
15 each iteration, so `endT - t` iterations of fuel always suffice; the fuel
only makes the recursion structural. -/
def slotWalkAux (ov : Nat → Nat) (cap dur endT : Nat) :
    Nat → Nat → List Nat
  | 0, _ => []
  | fuel + 1, t =>
    if t < endT then
      (if (t + dur) % 1440 ≤ endT ∧ ov t < cap then [t] else []) ++
        slotWalkAux ov cap dur endT fuel (t + 15)
    else []

/-- The inner `WHILE v_current_time < v_block.end_time` loop: walk candidate
start times in 15-minute steps from `t`; a candidate `t` is emitted when its
wrapped end `(t + dur) % 1440` is at most `endT` and the overlap count at `t`
is below the capacity.  `ov t` stands for the overlap count of the candidate
starting at `t`.  The SQL's step `v_current_time + interval '15 minutes'`
also wraps, but in every terminating execution of the loop the step never
wraps (a wrapped step revisits a state and the loop then never exits); the
walk is therefore embedded with an unwrapped step, and
`slotWalkPg_eq_slotWalk` proves it equal to the wrapped-step reference
`slotWalkPg` on exactly the terminating executions. -/
def slotWalk (ov : Nat → Nat) (cap dur endT : Nat) (t : Nat) : List Nat :=
  slotWalkAux ov cap dur endT (endT - t) t

/-- Wrapped-step reference of the same WHILE loop, stepping
`(t + 15) % 1440` exactly as the SQL does, with `none` denoting an execution
that ran out of fuel with the guard still true. -/
def slotWalkPgAux (ov : Nat → Nat) (cap dur endT : Nat) :
    Nat → Nat → Option (List Nat)
  | 0, t => if t < endT then none else some []
  | fuel + 1, t =>
    if t < endT then
      (slotWalkPgAux ov cap dur endT fuel ((t + 15) % 1440)).map
        (fun rest =>
          (if (t + dur) % 1440 ≤ endT ∧ ov t < cap then [t] else []) ++ rest)
    else some []

/-- The wrapped-step loop with fuel `1442`: the loop's whole state is its
current time, a value in `[0, 1440]`, so a loop that survives `1442`
iterations has revisited a state and, being deterministic, never exits.
`none` therefore characterises exactly the executions on which the SQL loop
diverges. -/
def slotWalkPg (ov : Nat → Nat) (cap dur endT : Nat) (t : Nat) :
    Option (List Nat) :=
  slotWalkPgAux ov cap dur endT 1442 t

/-- Slots contributed by one availability block; the slot end handed to the
overlap query is the wrapped `v_slot_end_time`. -/
def slotsForBlock (appts : List Appointment) (p_business_id p_staff_id : Nat)
    (p_date : Nat) (dur : Nat) (b : AvailabilityBlock) : List Nat :=
  slotWalk
    (fun t => overlapCount appts p_business_id p_staff_id p_date t ((t + dur) % 1440))
    (effectiveCapacity b) dur b.end_time b.start_time

/-- Comparison used to embed `ORDER BY start_time`. -/
def blockLE (a b : AvailabilityBlock) : Prop :=
  a.start_time ≤ b.start_time

instance : DecidableRel blockLE := fun a b => Nat.decLe _ _

instance : IsTotal AvailabilityBlock blockLE :=
  ⟨fun x y => Nat.le_total x.start_time y.start_time⟩

instance : IsTrans AvailabilityBlock blockLE :=
  ⟨fun _ _ _ h h' => Nat.le_trans h h'⟩

/-- The block query of `generate_free_time_slots`: blocks of the business and
date whose `staff_id` equals the filter or is NULL, `ORDER BY start_time`
(embedded as a stable insertion sort of the table in row order). -/
def matchingBlocks (blocks : List AvailabilityBlock)
    (p_staff_id p_business_id : Nat) (p_date : Nat) : List AvailabilityBlock :=
  List.insertionSort blockLE
    (blocks.filter fun b =>
      b.business_id == p_business_id
        && (b.staff_id == some p_staff_id || b.staff_id == none)
        && b.date == p_date)

/-- `generate_free_time_slots(p_staff_id, p_business_id, p_date,
p_service_duration)`: the returned `free_slots` array, as start times in
emission order (the SQL formats each as an `HH24:MI` string). -/
def generate_free_time_slots (blocks : List AvailabilityBlock)
    (appts : List Appointment) (p_staff_id p_business_id : Nat) (p_date : Nat)
    (p_service_duration : Nat) : List Nat :=
  (matchingBlocks blocks p_staff_id p_business_id p_date).flatMap
    (slotsForBlock appts p_business_id p_staff_id p_date p_service_duration)

/-! ## Block Materializer: `sync_barber_schedules_to_availability` -/

/-- Errors raised by `sync_barber_schedules_to_availability`
(`RAISE EXCEPTION`): invalid date range, or caller not owning the business. -/
inductive SyncError where
  | invalidRange
  | unauthorized
deriving DecidableEq, Repr

/-- The `blocks_created` / `blocks_skipped` fields of the returned jsonb. -/
structure SyncResult where
  blocks_created : Nat
  blocks_skipped : Nat
deriving DecidableEq, Repr

/-- The `NOT EXISTS` key match of the sync function: same `business_id`,
`barber_id`, `date`, `start_time`, `end_time` (capacity not compared). -/
def sameBlockKey (a b : AvailabilityBlock) : Bool :=
  a.business_id == b.business_id
    && a.staff_id == b.staff_id
    && a.date == b.date
    && a.start_time == b.start_time
    && a.end_time == b.end_time

/-- `EXTRACT(DOW FROM date)` under the day-number embedding (day 0 a Sunday). -/
def dow (d : Nat) : Nat := d % 7

/-- The dates walked by `WHILE v_current_date <= p_end_date`. -/
def datesInRange (sd ed : Nat) : List Nat :=
  (List.range (ed + 1 - sd)).map (sd + ·)

/-- Candidate blocks the sync function tries to insert for one schedule row on
one matching date: two blocks around the break when both break columns are
set, one block for the whole work window otherwise.  Inserted rows take the
`max_clients` column DEFAULT of 1. -/
def candidateBlocks (p_business_id : Nat) (r : WeeklySchedule) (d : Nat) :
    List AvailabilityBlock :=
  match r.break_start_time, r.break_end_time with
  | some bs, some be =>
      [⟨p_business_id, some r.staff_id, d, r.work_start_time, bs, 1⟩,
       ⟨p_business_id, some r.staff_id, d, be, r.work_end_time, 1⟩]
  | _, _ =>
      [⟨p_business_id, some r.staff_id, d, r.work_start_time, r.work_end_time, 1⟩]

/-- All candidate blocks of one schedule row over the date range, in loop
order: dates ascending, matching the row's weekday. -/
def ruleCandidates (p_business_id : Nat) (sd ed : Nat) (r : WeeklySchedule) :
    List AvailabilityBlock :=
  ((datesInRange sd ed).filter fun d => dow d == r.weekday).flatMap
    (candidateBlocks p_business_id r)

/-- All candidate blocks of one sync call: every active schedule row of the
business (in table row order), each expanded over the date range. -/
def syncCandidates (rules : List WeeklySchedule) (p_business_id : Nat)
    (sd ed : Nat) : List AvailabilityBlock :=
  (rules.filter fun r => r.business_id == p_business_id && r.is_active).flatMap
    (ruleCandidates p_business_id sd ed)

/-- The per-candidate `IF NOT EXISTS ... INSERT ... ELSE skip` loop, threading
the store and the created/skipped counters. -/
def insertCandidates :
    List AvailabilityBlock → List AvailabilityBlock → Nat → Nat →
      List AvailabilityBlock × Nat × Nat
  | [], store, c, k => (store, c, k)
  | b :: rest, store, c, k =>
      if store.any (fun x => sameBlockKey x b) then
        insertCandidates rest store c (k + 1)
      else
        insertCandidates rest (store ++ [b]) (c + 1) k

/-- `sync_barber_schedules_to_availability(p_business_id, p_start_date,
p_end_date)`.  The two `RAISE EXCEPTION` guards run before any insert, so on
error the block store is returned unchanged; on success the store is the
input store extended with the newly inserted blocks. -/
def sync_barber_schedules_to_availability (businesses : List Business)
    (caller : Nat) (rules : List WeeklySchedule)
    (store : List AvailabilityBlock) (p_business_id : Nat)
    (p_start_date p_end_date : Nat) :
    Except SyncError SyncResult × List AvailabilityBlock :=
  if p_end_date < p_start_date then
    (Except.error SyncError.invalidRange, store)
  else if businesses.any (fun b => b.id == p_business_id && b.owner_id == caller) then
    let res := insertCandidates
      (syncCandidates rules p_business_id p_start_date p_end_date) store 0 0
    (Except.ok ⟨res.2.1, res.2.2⟩, res.1)
  else
    (Except.error SyncError.unauthorized, store)

/-! ## Booking creation (both booking surfaces) -/

/-- Error kind the spec's `CreateBooking` contract can return. -/
inductive BookingError where
  | conflict
deriving DecidableEq, Repr

/-- Fields either booking surface sends to `supabase.from('appointments')
.insert(...)`.  The public page sends no staff field (NULL); the internal
`NewAppointmentModal` sends the selected staff member. -/
structure BookingRequest where
  business_id : Nat
  staff_id : Option Nat
  customer_id : Nat
  service_id : Nat
  appointment_date : Nat
  appointment_time : Nat
  duration_minutes : Nat
deriving DecidableEq, Repr

/-- The appointment row inserted for a request; both surfaces hard-code
`status: 'scheduled'`. -/
def bookingRow (req : BookingRequest) : Appointment :=
  ⟨req.business_id, req.staff_id, req.customer_id, req.service_id,
    req.appointment_date, req.appointment_time, req.duration_minutes,
    ApptStatus.scheduled⟩

/-- `handleSubmit` of the public booking page and of
`NewAppointmentModal` (BookingsPage): a single unconditional insert of the
appointment row.  Neither surface queries existing appointments or
availability blocks before inserting, so the call always succeeds. -/
def createBooking (appts : List Appointment) (req : BookingRequest) :
    Except BookingError Appointment × List Appointment :=
  (Except.ok (bookingRow req), appts ++ [bookingRow req])

/-- `handleSubmit` of the `SettingsPage` availability-block modal: a single
unconditional insert of the block row (the DDL adds no CHECK or UNIQUE
constraint that could reject it). -/
def createAvailabilityBlock (store : List AvailabilityBlock)
    (b : AvailabilityBlock) : List AvailabilityBlock :=
  store ++ [b]

/-! ## Invariants stated by the spec about the availability-block store -/

/-- Every block's `end_time` lies strictly after its `start_time`. -/
def endAfterStart (s : List AvailabilityBlock) : Prop :=
  ∀ b ∈ s, b.start_time < b.end_time

/-- No two blocks of the store share the
(business, staff, date, start_time, end_time) key. -/
def noDupKeys (s : List AvailabilityBlock) : Prop :=
  List.Pairwise (fun a b => sameBlockKey a b = false) s

instance (s : List AvailabilityBlock) : Decidable (endAfterStart s) :=
  List.decidableBAll _ s

instance (s : List AvailabilityBlock) : Decidable (noDupKeys s) :=
  List.instDecidablePairwise s

/-! ## Lemmas about the slot walk -/

/-- Any fuel at least `endT - t` yields the same walk. -/
theorem slotWalkAux_irrel (ov : Nat → Nat) (cap dur endT : Nat) :
    ∀ f₁ f₂ t, endT - t ≤ f₁ → endT - t ≤ f₂ →
      slotWalkAux ov cap dur endT f₁ t = slotWalkAux ov cap dur endT f₂ t := by
  intro f₁
  induction f₁ with
  | zero =>
    intro f₂ t h1 _
    cases f₂ with
    | zero => rfl
    | succ g =>
      have hn : ¬ t < endT := by omega
      simp [slotWalkAux, hn]
  | succ f ih =>
    intro f₂ t h1 h2
    cases f₂ with
    | zero =>
      have hn : ¬ t < endT := by omega
      simp [slotWalkAux, hn]
    | succ g =>
      by_cases hlt : t < endT
      · simp only [slotWalkAux, if_pos hlt]
        rw [ih g (t + 15) (by omega) (by omega)]
      · simp [slotWalkAux, hlt]

/-- Unfolding equation of `slotWalk`, mirroring one iteration of the WHILE
loop. -/
theorem slotWalk_eq (ov : Nat → Nat) (cap dur endT : Nat) (t : Nat) :
    slotWalk ov cap dur endT t =
      if t < endT then
        (if (t + dur) % 1440 ≤ endT ∧ ov t < cap then [t] else []) ++
          slotWalk ov cap dur endT (t + 15)
      else [] := by
  by_cases hlt : t < endT
  · have hf : endT - t = (endT - t - 1) + 1 := by omega
    rw [if_pos hlt]
    show slotWalkAux ov cap dur endT (endT - t) t = _
    rw [hf]
    simp only [slotWalkAux, if_pos hlt]
    rw [slotWalkAux_irrel ov cap dur endT (endT - t - 1) (endT - (t + 15)) (t + 15)
      (by omega) (by omega)]
    rfl
  · have hf : endT - t = 0 := by omega
    rw [if_neg hlt]
    show slotWalkAux ov cap dur endT (endT - t) t = _
    rw [hf]
    rfl

/-- Every emitted slot is a 15-minute multiple from `t`, has its wrapped end
inside the window, is under capacity, and lies in `[t, endT)`. -/
theorem slotWalkAux_mem (ov : Nat → Nat) (cap dur endT : Nat) :
    ∀ fuel t x, x ∈ slotWalkAux ov cap dur endT fuel t →
      (∃ k, x = t + 15 * k) ∧ (x + dur) % 1440 ≤ endT ∧ ov x < cap
        ∧ t ≤ x ∧ x < endT := by
  intro fuel
  induction fuel with
  | zero => intro t x hx; simp [slotWalkAux] at hx
  | succ f ih =>
    intro t x hx
    simp only [slotWalkAux] at hx
    by_cases hlt : t < endT
    · rw [if_pos hlt] at hx
      rcases List.mem_append.1 hx with h1 | h2
      · by_cases hc : (t + dur) % 1440 ≤ endT ∧ ov t < cap
        · rw [if_pos hc] at h1
          have hx' : x = t := by simpa using h1
          subst hx'
          exact ⟨⟨0, by omega⟩, hc.1, hc.2, Nat.le_refl _, hlt⟩
        · rw [if_neg hc] at h1
          simp at h1
      · obtain ⟨⟨k, hk⟩, h2', h3', h4', h5'⟩ := ih (t + 15) x h2
        exact ⟨⟨k + 1, by omega⟩, h2', h3', by omega, h5'⟩
    · rw [if_neg hlt] at hx
      simp at hx

/-- Conversely, every aligned candidate below the window end whose wrapped
end fits and whose overlap count is under capacity is emitted. -/
theorem slotWalk_mem_of (ov : Nat → Nat) (cap dur endT : Nat) :
    ∀ k t, t + 15 * k < endT → (t + 15 * k + dur) % 1440 ≤ endT →
      ov (t + 15 * k) < cap → t + 15 * k ∈ slotWalk ov cap dur endT t := by
  intro k
  induction k with
  | zero =>
    intro t h0 h1 h2
    rw [slotWalk_eq]
    have hlt : t < endT := by omega
    rw [if_pos hlt, if_pos ⟨by simpa using h1, by simpa using h2⟩]
    simp
  | succ k ih =>
    intro t h0 h1 h2
    rw [slotWalk_eq]
    have hlt : t < endT := by omega
    rw [if_pos hlt]
    refine List.mem_append.2 (Or.inr ?_)
    have e : t + 15 * (k + 1) = t + 15 + 15 * k := by omega
    rw [e] at h0 h1 h2 ⊢
    exact ih (t + 15) h0 h1 h2

/-- Membership characterisation of the slot walk: an aligned candidate below
the window end is emitted iff its wrapped end fits and it is under
capacity. -/
theorem slotWalk_mem_iff (ov : Nat → Nat) (cap dur endT : Nat) (t x : Nat) :
    x ∈ slotWalk ov cap dur endT t ↔
      (∃ k, x = t + 15 * k) ∧ x < endT ∧ (x + dur) % 1440 ≤ endT
        ∧ ov x < cap := by
  constructor
  · intro hx
    obtain ⟨hk, h1, h2, _, h3⟩ := slotWalkAux_mem ov cap dur endT (endT - t) t x hx
    exact ⟨hk, h3, h1, h2⟩
  · rintro ⟨⟨k, rfl⟩, h0, h1, h2⟩
    exact slotWalk_mem_of ov cap dur endT k t h0 h1 h2

/-- The walk emits times in ascending order. -/
theorem slotWalkAux_sorted (ov : Nat → Nat) (cap dur endT : Nat) :
    ∀ fuel t, List.Sorted (· ≤ ·) (slotWalkAux ov cap dur endT fuel t) := by
  intro fuel
  induction fuel with
  | zero => intro t; simp [slotWalkAux]
  | succ f ih =>
    intro t
    simp only [slotWalkAux]
    by_cases hlt : t < endT
    · rw [if_pos hlt]
      by_cases hc : (t + dur) % 1440 ≤ endT ∧ ov t < cap
      · rw [if_pos hc]
        refine List.sorted_cons.2 ⟨?_, ih (t + 15)⟩
        intro y hy
        have := (slotWalkAux_mem ov cap dur endT f (t + 15) y hy).2.2.2.1
        omega
      · rw [if_neg hc]
        simpa using ih (t + 15)
    · rw [if_neg hlt]
      simp

/-- The slots of one block are ascending. -/
theorem slotsForBlock_sorted (appts : List Appointment)
    (pb ps : Nat) (d : Nat) (dur : Nat) (b : AvailabilityBlock) :
    List.Sorted (· ≤ ·) (slotsForBlock appts pb ps d dur b) :=
  slotWalkAux_sorted _ _ _ _ _ _

/-- The slots of one block lie in `[start_time, end_time)`. -/
theorem slotsForBlock_mem_bounds (appts : List Appointment)
    (pb ps : Nat) (d : Nat) (dur : Nat) (b : AvailabilityBlock) (x : Nat)
    (hx : x ∈ slotsForBlock appts pb ps d dur b) :
    b.start_time ≤ x ∧ x < b.end_time := by
  have h := slotWalkAux_mem _ _ _ _ _ _ _ hx
  exact ⟨h.2.2.2.1, h.2.2.2.2⟩

/-- On every terminating execution the wrapped step never wraps: while the
guard holds, `endT ≤ 1425 + t % 15` keeps each step below 24:00, so the
wrapped-step reference loop computes exactly `slotWalk`. -/
theorem slotWalkPgAux_eq (ov : Nat → Nat) (cap dur endT : Nat) :
    ∀ fuel t, (endT ≤ 1425 + t % 15 ∨ endT ≤ t) → endT ≤ t + 15 * fuel →
      slotWalkPgAux ov cap dur endT fuel t = some (slotWalk ov cap dur endT t) := by
  intro fuel
  induction fuel with
  | zero =>
    intro t _ hf
    have hn : ¬ t < endT := by omega
    rw [slotWalk_eq, if_neg hn]
    simp [slotWalkPgAux, hn]
  | succ f ih =>
    intro t h hf
    by_cases hlt : t < endT
    · have hcase : endT ≤ 1425 + t % 15 := by
        rcases h with h | h
        · exact h
        · omega
      have hstep : t + 15 < 1440 := by omega
      have hmod : (t + 15) % 1440 = t + 15 := Nat.mod_eq_of_lt hstep
      simp only [slotWalkPgAux, if_pos hlt, hmod]
      rw [ih (t + 15) (Or.inl (by omega)) (by omega)]
      rw [slotWalk_eq ov cap dur endT t, if_pos hlt]
      rfl
    · rw [slotWalk_eq, if_neg hlt]
      simp [slotWalkPgAux, hlt]

/-- The unwrapped-step embedding agrees with the wrapped-step SQL loop on
every terminating execution: whenever some aligned step value reaches the
interval `[endT, 1440)` (equivalently `endT ≤ 1425 + t % 15`, or the loop
exits at once), the SQL loop terminates with exactly the slots of
`slotWalk`; all other executions are the diverging ones (`slotWalkPg` is
`none`). -/
theorem slotWalkPg_eq_slotWalk (ov : Nat → Nat) (cap dur endT t : Nat)
    (hend : endT ≤ 1440) (hterm : endT ≤ 1425 + t % 15 ∨ endT ≤ t) :
    slotWalkPg ov cap dur endT t = some (slotWalk ov cap dur endT t) :=
  slotWalkPgAux_eq ov cap dur endT 1442 t hterm (by omega)

/-- The 22:00–23:30 block with a 60-minute service is a terminating
execution: the wrapped-step SQL loop exits at 23:30 and returns exactly the
embedded walk's slots. -/
theorem slotWalkPg_near_midnight_block :
    slotWalkPg (fun t => overlapCount [] 1 2 5 t ((t + 60) % 1440)) 1 60 1410 1320
      = some (slotsForBlock [] 1 2 5 60 ⟨1, some 2, 5, 1320, 1410, 1⟩) :=
  slotWalkPg_eq_slotWalk _ 1 60 1410 1320 (by decide) (Or.inl (by decide))

/-! ## Lemmas about the overlap count -/

/-- An appointment whose `staff_id` is NULL never satisfies the overlap
query's `staff_id = p_staff_id` filter. -/
theorem apptOverlapsb_of_staff_none (pb ps pd s e : Nat) (a : Appointment)
    (h : a.staff_id = none) : apptOverlapsb pb ps pd s e a = false := by
  simp [apptOverlapsb, h]

/-- Dropping a NULL-staff appointment leaves every overlap count unchanged. -/
theorem overlapCount_cons_staff_none (pb ps pd s e : Nat) (a : Appointment)
    (appts : List Appointment) (h : a.staff_id = none) :
    overlapCount (a :: appts) pb ps pd s e = overlapCount appts pb ps pd s e := by
  simp [overlapCount, List.countP_cons, apptOverlapsb_of_staff_none pb ps pd s e a h]

/-! ## Lemmas about the materializer's insert loop -/

/-- `sameBlockKey` is reflexive. -/
theorem sameBlockKey_self (b : AvailabilityBlock) : sameBlockKey b b = true := by
  simp [sameBlockKey]

/-- The insert loop never removes a block. -/
theorem insertCandidates_mono :
    ∀ (cands store : List AvailabilityBlock) (c k : Nat) (x : AvailabilityBlock),
      x ∈ store → x ∈ (insertCandidates cands store c k).1 := by
  intro cands
  induction cands with
  | nil => intro store c k x hx; simpa [insertCandidates] using hx
  | cons b rest ih =>
    intro store c k x hx
    by_cases h : store.any (fun y => sameBlockKey y b)
    · simpa [insertCandidates, h] using ih store c (k + 1) x hx
    · simp only [insertCandidates, Bool.not_eq_true] at h ⊢
      rw [if_neg (by simp [h])]
      exact ih _ (c + 1) k x (List.mem_append.2 (Or.inl hx))

/-- After the loop, every processed candidate's key is present in the store. -/
theorem insertCandidates_key_present :
    ∀ (cands store : List AvailabilityBlock) (c k : Nat) (b : AvailabilityBlock),
      b ∈ cands →
        ∃ x ∈ (insertCandidates cands store c k).1, sameBlockKey x b = true := by
  intro cands
  induction cands with
  | nil => intro store c k b hb; simp at hb
  | cons a rest ih =>
    intro store c k b hb
    rcases List.mem_cons.1 hb with hb | hb
    · subst hb
      by_cases h : store.any (fun y => sameBlockKey y b)
      · obtain ⟨x, hx, hk⟩ := List.any_eq_true.1 h
        refine ⟨x, ?_, hk⟩
        simpa [insertCandidates, h] using insertCandidates_mono rest store c (k + 1) x hx
      · refine ⟨b, ?_, sameBlockKey_self b⟩
        simp only [insertCandidates, if_neg h]
        exact insertCandidates_mono rest (store ++ [b]) (c + 1) k b
          (List.mem_append.2 (Or.inr (List.mem_singleton.2 rfl)))
    · by_cases h : store.any (fun y => sameBlockKey y a)
      · simpa [insertCandidates, h] using ih store c (k + 1) b hb
      · simp only [insertCandidates, if_neg h]
        exact ih (store ++ [a]) (c + 1) k b hb

/-- If every candidate's key is already present, the loop only skips: the
store is unchanged, nothing is created, every candidate is skipped. -/
theorem insertCandidates_all_present :
    ∀ (cands store : List AvailabilityBlock) (c k : Nat),
      (∀ b ∈ cands, store.any (fun y => sameBlockKey y b) = true) →
        insertCandidates cands store c k = (store, c, k + cands.length) := by
  intro cands
  induction cands with
  | nil => intro store c k _; simp [insertCandidates]
  | cons a rest ih =>
    intro store c k h
    have ha : store.any (fun y => sameBlockKey y a) = true := h a (List.mem_cons_self a rest)
    rw [insertCandidates, if_pos ha,
      ih store c (k + 1) (fun b hb => h b (List.mem_cons_of_mem a hb))]
    have : k + 1 + rest.length = k + (a :: rest).length := by
      simp [List.length_cons]; omega
    rw [this]

/-- The insert loop preserves key-uniqueness of the store: a candidate is
inserted only when its key is absent. -/
theorem insertCandidates_noDupKeys :
    ∀ (cands store : List AvailabilityBlock) (c k : Nat),
      noDupKeys store → noDupKeys (insertCandidates cands store c k).1 := by
  intro cands
  induction cands with
  | nil => intro store c k h; simpa [insertCandidates] using h
  | cons a rest ih =>
    intro store c k h
    by_cases ha : store.any (fun y => sameBlockKey y a)
    · simpa [insertCandidates, ha] using ih store c (k + 1) h
    · simp only [insertCandidates, if_neg ha]
      refine ih (store ++ [a]) (c + 1) k ?_
      have hall : ∀ x ∈ store, sameBlockKey x a = false := by
        intro x hx
        have := List.any_eq_true.not.1 (by simpa using ha)
        by_cases hxa : sameBlockKey x a = true
        · exact absurd ⟨x, hx, hxa⟩ this
        · simpa using hxa
      refine List.pairwise_append.2 ⟨h, List.pairwise_singleton _ _, ?_⟩
      intro x hx y hy
      rw [List.mem_singleton.1 hy]
      exact hall x hx

/-- Concatenating the per-block slot lists yields an ascending list when the
blocks are sorted by start time and consecutive blocks do not overlap. -/
theorem flatMap_slotsForBlock_sorted (appts : List Appointment)
    (pb ps d dur : Nat) :
    ∀ l : List AvailabilityBlock, List.Sorted blockLE l →
      List.Chain' (fun a b => a.end_time ≤ b.start_time) l →
      List.Sorted (· ≤ ·) (l.flatMap (slotsForBlock appts pb ps d dur)) := by
  intro l
  induction l with
  | nil => intro _ _; simp
  | cons b rest ih =>
    intro hsort hchain
    rw [List.flatMap_cons]
    refine List.pairwise_append.2
      ⟨slotsForBlock_sorted appts pb ps d dur b, ih hsort.of_cons hchain.tail, ?_⟩
    intro x hx y hy
    obtain ⟨c, hc, hyc⟩ := List.mem_flatMap.1 hy
    have hxb := (slotsForBlock_mem_bounds appts pb ps d dur b x hx).2
    have hyc' := (slotsForBlock_mem_bounds appts pb ps d dur c y hyc).1
    cases rest with
    | nil => simp at hc
    | cons r₁ rest' =>
      have h1 : b.end_time ≤ r₁.start_time := (List.chain'_cons.1 hchain).1
      have h2 : r₁.start_time ≤ c.start_time := by
        rcases List.mem_cons.1 hc with hce | hc'
        · rw [hce]
        · exact (List.sorted_cons.1 hsort.of_cons).1 c hc'
      omega

/-! ## Claims -/

/-- C1: the claim says every `CreateBooking` re-runs the 4.2 overlap test
before inserting and rejects with Conflict when the governing block's
capacity is already reached.  The code contradicts it (and the repo's own
`AVAILABILITY_SETUP.md`): at a state where the requested slot's overlap count
already equals the capacity-1 governing block's capacity, the booking
creation of both surfaces performs no check, reports success, and inserts a
second scheduled booking. -/
theorem createBooking_no_conflict_check :
    effectiveCapacity ⟨1, some 2, 5, 600, 660, 1⟩ ≤
        overlapCount [⟨1, some 2, 7, 3, 5, 600, 30, ApptStatus.scheduled⟩] 1 2 5 600 630
    ∧ (createBooking [⟨1, some 2, 7, 3, 5, 600, 30, ApptStatus.scheduled⟩]
          ⟨1, some 2, 8, 3, 5, 600, 30⟩).1
        = Except.ok (bookingRow ⟨1, some 2, 8, 3, 5, 600, 30⟩)
    ∧ (createBooking [⟨1, some 2, 7, 3, 5, 600, 30, ApptStatus.scheduled⟩]
          ⟨1, some 2, 8, 3, 5, 600, 30⟩).2
        = [⟨1, some 2, 7, 3, 5, 600, 30, ApptStatus.scheduled⟩,
           bookingRow ⟨1, some 2, 8, 3, 5, 600, 30⟩] :=
  ⟨by decide, rfl, rfl⟩

/-- C2: the claim demands that of two concurrent `CreateBooking` calls for
the same capacity-1 slot exactly one succeeds.  Each call is a single
unconditional insert, so in every interleaving (equivalently, in either
sequential order) both calls succeed and the store ends with two scheduled
bookings occupying the slot. -/
theorem createBooking_race_double_books :
    (createBooking [] ⟨1, some 2, 8, 3, 5, 600, 30⟩).1
        = Except.ok (bookingRow ⟨1, some 2, 8, 3, 5, 600, 30⟩)
    ∧ (createBooking (createBooking [] ⟨1, some 2, 8, 3, 5, 600, 30⟩).2
          ⟨1, some 2, 9, 3, 5, 600, 30⟩).1
        = Except.ok (bookingRow ⟨1, some 2, 9, 3, 5, 600, 30⟩)
    ∧ overlapCount (createBooking (createBooking [] ⟨1, some 2, 8, 3, 5, 600, 30⟩).2
          ⟨1, some 2, 9, 3, 5, 600, 30⟩).2 1 2 5 600 630 = 2
    ∧ effectiveCapacity ⟨1, some 2, 5, 540, 1020, 1⟩ = 1 :=
  ⟨rfl, rfl, by decide, rfl⟩

/-- C3: materialization is idempotent: if a sync call succeeds, re-running it
over the same range with unchanged rules creates nothing and leaves the block
store exactly as the first run left it. -/
theorem materialize_idempotent (businesses : List Business) (caller : Nat)
    (rules : List WeeklySchedule) (store : List AvailabilityBlock)
    (p sd ed : Nat) (r₁ : SyncResult) (s₁ : List AvailabilityBlock)
    (h : sync_barber_schedules_to_availability businesses caller rules store p sd ed
          = (Except.ok r₁, s₁)) :
    ∃ k, sync_barber_schedules_to_availability businesses caller rules s₁ p sd ed
          = (Except.ok ⟨0, k⟩, s₁) := by
  by_cases hr : ed < sd
  · simp only [sync_barber_schedules_to_availability, if_pos hr] at h
    simp at h
  · by_cases hauth : businesses.any (fun b => b.id == p && b.owner_id == caller)
    · simp only [sync_barber_schedules_to_availability, if_neg hr, if_pos hauth] at h
      have hs : (insertCandidates (syncCandidates rules p sd ed) store 0 0).1 = s₁ :=
        congrArg Prod.snd h
      refine ⟨0 + (syncCandidates rules p sd ed).length, ?_⟩
      have hall : ∀ b ∈ syncCandidates rules p sd ed,
          s₁.any (fun y => sameBlockKey y b) = true := by
        intro b hb
        obtain ⟨x, hx, hk⟩ :=
          insertCandidates_key_present (syncCandidates rules p sd ed) store 0 0 b hb
        rw [← hs]
        exact List.any_eq_true.2 ⟨x, hx, hk⟩
      simp only [sync_barber_schedules_to_availability, if_neg hr, if_pos hauth]
      rw [insertCandidates_all_present _ _ 0 0 hall]
    · simp only [sync_barber_schedules_to_availability, if_neg hr, if_neg hauth] at h
      simp at h

/-- Witness for C3 at a concrete one-rule materialization. -/
theorem materialize_idempotent_witness :
    ∃ k, sync_barber_schedules_to_availability [⟨1, 10⟩] 10
        [⟨1, 2, 1, 540, 1020, none, none, true⟩]
        [⟨1, some 2, 1, 540, 1020, 1⟩] 1 0 6
        = (Except.ok ⟨0, k⟩, [⟨1, some 2, 1, 540, 1020, 1⟩]) :=
  materialize_idempotent [⟨1, 10⟩] 10 [⟨1, 2, 1, 540, 1020, none, none, true⟩]
    [] 1 0 6 ⟨1, 0⟩ [⟨1, some 2, 1, 540, 1020, 1⟩] (by rfl)

/-- C4 counterexample: the claim's acceptance test `overlapCount <
max(1, capacity)` disagrees with the code on a capacity-0 block (which the
schema admits: `max_clients int NOT NULL DEFAULT 1` with no CHECK): the
candidate 10:00 satisfies the claim's test yet is not offered. -/
theorem freeSlots_capacity_zero_counterexample :
    overlapCount [] 1 2 5 600 630
        < max 1 (AvailabilityBlock.max_clients ⟨1, some 2, 5, 600, 660, 0⟩)
    ∧ 600 + 30 ≤ 660
    ∧ 600 ∉ generate_free_time_slots [⟨1, some 2, 5, 600, 660, 0⟩] [] 2 1 5 30 := by
  decide

/-- C4 amended: the effective capacity is the block's stored `max_clients`
(`COALESCE(max_clients, 1)` over a NOT NULL column); an aligned candidate
below the block end is accepted iff its wrapped end
`(start + duration) % 24h` fits and `overlapCount < effectiveCapacity`.  For
blocks with `max_clients ≥ 1` this capacity coincides with
`max(1, capacity)`, and a capacity-2 block with one overlapping scheduled
booking still offers the slot. -/
theorem freeSlots_effective_capacity (blk : AvailabilityBlock)
    (appts : List Appointment) (pb ps d dur x : Nat) :
    (1 ≤ blk.max_clients → effectiveCapacity blk = max 1 blk.max_clients)
    ∧ ((∃ k, x = blk.start_time + 15 * k) →
        (x ∈ slotsForBlock appts pb ps d dur blk ↔
          x < blk.end_time ∧ (x + dur) % 1440 ≤ blk.end_time ∧
            overlapCount appts pb ps d x ((x + dur) % 1440) < effectiveCapacity blk))
    ∧ 600 ∈ generate_free_time_slots [⟨1, some 2, 5, 540, 1020, 2⟩]
        [⟨1, some 2, 7, 3, 5, 600, 30, ApptStatus.scheduled⟩] 2 1 5 30 := by
  refine ⟨?_, ?_, by decide⟩
  · intro h
    simp only [effectiveCapacity]
    omega
  · intro hgen
    unfold slotsForBlock
    rw [slotWalk_mem_iff]
    constructor
    · rintro ⟨_, h0, h1, h2⟩; exact ⟨h0, h1, h2⟩
    · rintro ⟨h0, h1, h2⟩; exact ⟨hgen, h0, h1, h2⟩

/-- Witness for C4's amended statement at a capacity-2 block. -/
theorem freeSlots_effective_capacity_witness :
    effectiveCapacity ⟨1, some 2, 5, 540, 1020, 2⟩
      = max 1 (AvailabilityBlock.max_clients ⟨1, some 2, 5, 540, 1020, 2⟩) :=
  (freeSlots_effective_capacity ⟨1, some 2, 5, 540, 1020, 2⟩ [] 1 2 5 30 540).1
    (by decide)

/-- C5 counterexample: SQL `time + interval` arithmetic wraps modulo 24
hours, so the claimed exact boundary semantics fail near midnight: in the
block 22:00–23:30 a 60-minute service is offered at 23:00 although
23:00 + 60min exceeds the block end (the wrapped slot end 00:00 passes the
`≤` test), and a midnight-crossing booking 23:00+90min is not counted
against the 23:15 candidate although the claimed strict comparisons make it
an overlap.  This block's walk is a terminating SQL execution: the loop
exits at 23:30 (`slotWalkPg_near_midnight_block`). -/
theorem freeSlots_boundary_wrap_counterexample :
    1380 ∈ slotsForBlock [] 1 2 5 60 ⟨1, some 2, 5, 1320, 1410, 1⟩
    ∧ ¬ (1380 + 60 ≤ 1410)
    ∧ overlapCount [⟨1, some 2, 7, 3, 5, 1380, 90, ApptStatus.scheduled⟩]
        1 2 5 1395 ((1395 + 15) % 1440) = 0
    ∧ 1395 < 1380 + 90 ∧ 1395 + 15 > 1380 := by
  decide

/-- C5 amended: the boundary tests are exact on the wrapped values: an
aligned candidate below the block end is offered iff
`(start + duration) % 24h ≤ end_time` (and under capacity), and a scheduled
booking of the queried staff/date counts as overlapping iff
`start < (bookingStart + bookingDuration) % 24h` and the wrapped slot end
strictly exceeds `bookingStart`; whenever the slot and the booking stay
within the day, these reduce to the claimed exact half-open semantics. -/
theorem freeSlots_boundary_semantics (blk : AvailabilityBlock)
    (appts : List Appointment) (pb ps d dur x : Nat)
    (hgen : ∃ k, x = blk.start_time + 15 * k) :
    (x ∈ slotsForBlock appts pb ps d dur blk ↔
      x < blk.end_time ∧ (x + dur) % 1440 ≤ blk.end_time ∧
        overlapCount appts pb ps d x ((x + dur) % 1440) < effectiveCapacity blk)
    ∧ (0 < dur → x + dur < 1440 →
        (x ∈ slotsForBlock appts pb ps d dur blk ↔
          x + dur ≤ blk.end_time ∧
            overlapCount appts pb ps d x (x + dur) < effectiveCapacity blk))
    ∧ ∀ a : Appointment, a.business_id = pb → a.staff_id = some ps →
        a.appointment_date = d → a.status = ApptStatus.scheduled →
        ((apptOverlapsb pb ps d x ((x + dur) % 1440) a = true ↔
            x < (a.appointment_time + a.duration_minutes) % 1440 ∧
              (x + dur) % 1440 > a.appointment_time)
          ∧ (a.appointment_time + a.duration_minutes < 1440 → x + dur < 1440 →
              (apptOverlapsb pb ps d x (x + dur) a = true ↔
                x < a.appointment_time + a.duration_minutes ∧
                  x + dur > a.appointment_time))) := by
  have hmem : x ∈ slotsForBlock appts pb ps d dur blk ↔
      x < blk.end_time ∧ (x + dur) % 1440 ≤ blk.end_time ∧
        overlapCount appts pb ps d x ((x + dur) % 1440) < effectiveCapacity blk := by
    unfold slotsForBlock
    rw [slotWalk_mem_iff]
    constructor
    · rintro ⟨_, h0, h1, h2⟩; exact ⟨h0, h1, h2⟩
    · rintro ⟨h0, h1, h2⟩; exact ⟨hgen, h0, h1, h2⟩
  refine ⟨hmem, ?_, ?_⟩
  · intro hdur hin
    have hm : (x + dur) % 1440 = x + dur := Nat.mod_eq_of_lt hin
    rw [hmem, hm]
    constructor
    · rintro ⟨_, h1, h2⟩; exact ⟨h1, h2⟩
    · rintro ⟨h1, h2⟩; exact ⟨by omega, h1, h2⟩
  · intro a h1 h2 h3 h4
    constructor
    · simp [apptOverlapsb, h1, h2, h3, h4,
        show (ApptStatus.scheduled == ApptStatus.scheduled) = true from rfl]
    · intro ha _
      have hm : (a.appointment_time + a.duration_minutes) % 1440
          = a.appointment_time + a.duration_minutes := Nat.mod_eq_of_lt ha
      simp [apptOverlapsb, h1, h2, h3, h4, hm,
        show (ApptStatus.scheduled == ApptStatus.scheduled) = true from rfl]

/-- Witness for C5's amended statement: block 09:00–17:00, 30-minute
service, empty diary: the 16:30 slot (wrapped end 17:00, fitting exactly to
the block's end) is offered. -/
theorem freeSlots_boundary_semantics_witness :
    990 ∈ slotsForBlock [] 1 2 5 30 ⟨1, some 2, 5, 540, 1020, 1⟩ :=
  ((freeSlots_boundary_semantics ⟨1, some 2, 5, 540, 1020, 1⟩ [] 1 2 5 30 990
      ⟨30, by decide⟩).1).mpr (by decide)

/-- C6: per matching date the materializer emits exactly the blocks
`[work_start, break_start)` and `[break_end, work_end)` for a rule with a
break, one block `[work_start, work_end)` without, and the 09:00–17:00 rule
with a 12:00–13:00 break over a range with two matching weekdays creates
exactly 4 blocks, two per date. -/
theorem materializer_break_split :
    (∀ (p : Nat) (r : WeeklySchedule) (d bs be : Nat),
        r.break_start_time = some bs → r.break_end_time = some be →
        candidateBlocks p r d =
          [⟨p, some r.staff_id, d, r.work_start_time, bs, 1⟩,
           ⟨p, some r.staff_id, d, be, r.work_end_time, 1⟩])
    ∧ (∀ (p : Nat) (r : WeeklySchedule) (d : Nat),
        r.break_start_time = none → r.break_end_time = none →
        candidateBlocks p r d =
          [⟨p, some r.staff_id, d, r.work_start_time, r.work_end_time, 1⟩])
    ∧ sync_barber_schedules_to_availability [⟨1, 10⟩] 10
        [⟨1, 2, 1, 540, 1020, some 720, some 780, true⟩] [] 1 0 13
        = (Except.ok ⟨4, 0⟩,
           [⟨1, some 2, 1, 540, 720, 1⟩, ⟨1, some 2, 1, 780, 1020, 1⟩,
            ⟨1, some 2, 8, 540, 720, 1⟩, ⟨1, some 2, 8, 780, 1020, 1⟩]) := by
  refine ⟨?_, ?_, by rfl⟩
  · intro p r d bs be h1 h2
    simp [candidateBlocks, h1, h2]
  · intro p r d h1 h2
    simp [candidateBlocks, h1, h2]

/-- Witness for C6 at a concrete rule with a break. -/
theorem materializer_break_split_witness :
    candidateBlocks 1 ⟨1, 2, 1, 540, 1020, some 720, some 780, true⟩ 3
      = [⟨1, some 2, 3, 540, 720, 1⟩, ⟨1, some 2, 3, 780, 1020, 1⟩] :=
  materializer_break_split.1 1 ⟨1, 2, 1, 540, 1020, some 720, some 780, true⟩
    3 720 780 rfl rfl

/-- C7: the materializer fails with InvalidRange when the range is inverted,
with Unauthorized when the caller does not own the business (the range guard
runs first), and in both cases it returns before any insert, leaving the
block store untouched. -/
theorem materializer_error_aborts (businesses : List Business) (caller : Nat)
    (rules : List WeeklySchedule) (store : List AvailabilityBlock)
    (p sd ed : Nat) :
    (ed < sd →
      sync_barber_schedules_to_availability businesses caller rules store p sd ed
        = (Except.error SyncError.invalidRange, store))
    ∧ (sd ≤ ed →
      businesses.any (fun b => b.id == p && b.owner_id == caller) = false →
      sync_barber_schedules_to_availability businesses caller rules store p sd ed
        = (Except.error SyncError.unauthorized, store)) := by
  constructor
  · intro h
    simp [sync_barber_schedules_to_availability, if_pos h]
  · intro h1 h2
    have hr : ¬ ed < sd := by omega
    simp [sync_barber_schedules_to_availability, hr, h2]

/-- Witness for C7: inverted range and foreign caller on concrete stores. -/
theorem materializer_error_aborts_witness :
    sync_barber_schedules_to_availability [⟨1, 10⟩] 10 []
        [⟨1, none, 5, 0, 1, 1⟩] 1 5 4
      = (Except.error SyncError.invalidRange, [⟨1, none, 5, 0, 1, 1⟩])
    ∧ sync_barber_schedules_to_availability [⟨1, 10⟩] 99 []
        [⟨1, none, 5, 0, 1, 1⟩] 1 0 1
      = (Except.error SyncError.unauthorized, [⟨1, none, 5, 0, 1, 1⟩]) :=
  ⟨(materializer_error_aborts [⟨1, 10⟩] 10 [] [⟨1, none, 5, 0, 1, 1⟩] 1 5 4).1
      (by decide),
   (materializer_error_aborts [⟨1, 10⟩] 99 [] [⟨1, none, 5, 0, 1, 1⟩] 1 0 1).2
      (by decide) (by rfl)⟩

/-- C8 counterexample: the schema enforces neither `end_time > start_time`
nor key uniqueness, and the manual-creation surface inserts unconditionally:
inserting the same inverted block twice leaves a store violating both parts
of the claimed invariant. -/
theorem blockStore_invariant_counterexample :
    ¬ (endAfterStart
          (createAvailabilityBlock
            (createAvailabilityBlock [] ⟨1, some 2, 5, 600, 540, 1⟩)
            ⟨1, some 2, 5, 600, 540, 1⟩)
        ∧ noDupKeys
          (createAvailabilityBlock
            (createAvailabilityBlock [] ⟨1, some 2, 5, 600, 540, 1⟩)
            ⟨1, some 2, 5, 600, 540, 1⟩)) := by
  decide

/-- C8 amended: the materializer inserts a candidate only when its
(business, staff, date, start_time, end_time) key is absent, so a successful
sync call preserves key-uniqueness of the block store; the schema itself
enforces neither key uniqueness nor `end_time > start_time`, and manual
creation can violate both. -/
theorem materializer_preserves_key_uniqueness (businesses : List Business)
    (caller : Nat) (rules : List WeeklySchedule)
    (store : List AvailabilityBlock) (p sd ed : Nat) (r : SyncResult)
    (s' : List AvailabilityBlock) (hnd : noDupKeys store)
    (h : sync_barber_schedules_to_availability businesses caller rules store p sd ed
          = (Except.ok r, s')) :
    noDupKeys s' := by
  by_cases hr : ed < sd
  · simp only [sync_barber_schedules_to_availability, if_pos hr] at h
    simp at h
  · by_cases hauth : businesses.any (fun b => b.id == p && b.owner_id == caller)
    · simp only [sync_barber_schedules_to_availability, if_neg hr, if_pos hauth] at h
      have hs : (insertCandidates (syncCandidates rules p sd ed) store 0 0).1 = s' :=
        congrArg Prod.snd h
      rw [← hs]
      exact insertCandidates_noDupKeys _ _ _ _ hnd
    · simp only [sync_barber_schedules_to_availability, if_neg hr, if_neg hauth] at h
      simp at h

/-- Witness for C8's amended statement at a concrete sync call. -/
theorem materializer_preserves_key_uniqueness_witness :
    noDupKeys [⟨1, some 2, 1, 540, 1020, 1⟩] :=
  materializer_preserves_key_uniqueness [⟨1, 10⟩] 10
    [⟨1, 2, 1, 540, 1020, none, none, true⟩] [] 1 0 6 ⟨1, 0⟩
    [⟨1, some 2, 1, 540, 1020, 1⟩] (by decide) (by rfl)

/-- C9 counterexample: with two overlapping blocks for the same staff and
date the emitted list is not sorted: the first block contributes up to 10:30
before the second block restarts at 09:30. -/
theorem freeSlots_output_not_sorted :
    ¬ List.Sorted (· ≤ ·)
        (generate_free_time_slots
          [⟨1, some 2, 5, 540, 660, 1⟩, ⟨1, some 2, 5, 570, 630, 1⟩]
          [] 2 1 5 30) := by
  decide

/-- C9 amended: slots are ascending within each block's contribution and the
blocks contribute in ascending `start_time` order, so the full output is
sorted whenever consecutive matching blocks do not overlap; with overlapping
blocks the concatenation need not be sorted. -/
theorem freeSlots_sorted_of_disjoint_blocks (blocks : List AvailabilityBlock)
    (appts : List Appointment) (ps pb d dur : Nat)
    (hchain : List.Chain' (fun a b => a.end_time ≤ b.start_time)
        (matchingBlocks blocks ps pb d)) :
    List.Sorted (· ≤ ·) (generate_free_time_slots blocks appts ps pb d dur) :=
  flatMap_slotsForBlock_sorted appts pb ps d dur
    (matchingBlocks blocks ps pb d)
    (List.sorted_insertionSort blockLE _) hchain

/-- Witness for C9's amended statement with two disjoint blocks. -/
theorem freeSlots_sorted_of_disjoint_blocks_witness :
    List.Sorted (· ≤ ·)
      (generate_free_time_slots
        [⟨1, some 2, 5, 540, 600, 1⟩, ⟨1, some 2, 5, 600, 660, 1⟩]
        [] 2 1 5 30) :=
  freeSlots_sorted_of_disjoint_blocks
    [⟨1, some 2, 5, 540, 600, 1⟩, ⟨1, some 2, 5, 600, 660, 1⟩]
    [] 2 1 5 30
    (by
      rw [show matchingBlocks
            [⟨1, some 2, 5, 540, 600, 1⟩, ⟨1, some 2, 5, 600, 660, 1⟩] 2 1 5
          = [⟨1, some 2, 5, 540, 600, 1⟩, ⟨1, some 2, 5, 600, 660, 1⟩] from rfl]
      exact List.chain'_cons.2 ⟨by decide, List.chain'_singleton _⟩)

/-- C10: the overlap query filters on `staff_id = p_staff_id`, so an
appointment whose staff field is NULL is never counted against any block's
capacity — including NULL-staff blocks — and removing such an appointment
leaves every overlap count and the whole slot list unchanged. -/
theorem freeSlots_ignores_null_staff_bookings (a : Appointment)
    (h : a.staff_id = none) (blocks : List AvailabilityBlock)
    (appts : List Appointment) (ps pb d dur : Nat) :
    (∀ s e, overlapCount (a :: appts) pb ps d s e = overlapCount appts pb ps d s e)
    ∧ generate_free_time_slots blocks (a :: appts) ps pb d dur
        = generate_free_time_slots blocks appts ps pb d dur := by
  have hov : ∀ s e, overlapCount (a :: appts) pb ps d s e
      = overlapCount appts pb ps d s e :=
    fun s e => overlapCount_cons_staff_none pb ps d s e a appts h
  refine ⟨hov, ?_⟩
  unfold generate_free_time_slots
  congr 1
  funext b
  unfold slotsForBlock
  congr 1
  funext t
  exact hov t ((t + dur) % 1440)

/-- Witness for C10: a NULL-staff appointment over a NULL-staff block changes
nothing in the slot list. -/
theorem freeSlots_ignores_null_staff_bookings_witness :
    generate_free_time_slots [⟨1, none, 5, 600, 660, 1⟩]
        [⟨1, none, 7, 3, 5, 600, 30, ApptStatus.scheduled⟩] 2 1 5 30
      = generate_free_time_slots [⟨1, none, 5, 600, 660, 1⟩] [] 2 1 5 30 :=
  (freeSlots_ignores_null_staff_bookings
      ⟨1, none, 7, 3, 5, 600, 30, ApptStatus.scheduled⟩ rfl
      [⟨1, none, 5, 600, 660, 1⟩] [] 2 1 5 30).2

end BarberEngine
